import Mathlib

/-
Verification of the RCA core of this repository: the topology graph
(utils/graph.py), the episode builder and the rule engine (utils/episodes.py),
shallowly embedded in Lean 4.  Python dicts are modelled as association lists
in insertion order, floats as rationals, raised exceptions as `Except.error`,
and Python's seed-randomised `hash` on strings as an explicit function
parameter.  Each definition mirrors one Python function and is named after it.
-/

set_option linter.unusedVariables false

/- Batteries marks the `Rat` arithmetic operations `@[irreducible]` as an
elaboration hint.  Counterexamples and witnesses below evaluate the embedded
functions on concrete inputs with `decide`, which needs these operations to
unfold; restoring `semireducible` only changes that unfolding hint (the
kernel re-checks every proof regardless of reducibility attributes). -/
set_option allowUnsafeReducibility true
attribute [local semireducible] Rat.mul Rat.inv Rat.add Rat.sub Rat.div Rat.neg

namespace RCA

/-! ### Python dict primitives (insertion-ordered association lists) -/

/-- Lookup in a dict: first entry whose key matches (keys built through
`dictSet`, `ddAppend` or `ddTouch` are unique, as in a Python dict). -/
def dictGet {α β : Type} [DecidableEq α] : List (α × β) → α → Option β
  | [], _ => none
  | p :: rest, k => if p.1 = k then some p.2 else dictGet rest k

/-- Key-membership in a dict, Python's `k in d`. -/
def dictContains {α β : Type} [DecidableEq α] (m : List (α × β)) (k : α) : Bool :=
  (dictGet m k).isSome

/-- Python's `d[k] = v`: overwrite in place, or append a new key. -/
def dictSet {α β : Type} [DecidableEq α] (m : List (α × β)) (k : α) (v : β) : List (α × β) :=
  if dictContains m k then m.map (fun p => if p.1 = k then (p.1, v) else p)
  else m ++ [(k, v)]

/-- Python's `d.update(new)`: one `dictSet` per entry of `new`, in order. -/
def dictUpdate {α β : Type} [DecidableEq α] (base new : List (α × β)) : List (α × β) :=
  new.foldl (fun acc p => dictSet acc p.1 p.2) base

/-- `defaultdict(list)` read access that materialises the key (`_ = d[k]`). -/
def ddTouch {α β : Type} [DecidableEq α] (m : List (α × List β)) (k : α) : List (α × List β) :=
  if dictContains m k then m else m ++ [(k, [])]

/-- `defaultdict(list)`'s `d[k].append(v)`. -/
def ddAppend {α β : Type} [DecidableEq α] (m : List (α × List β)) (k : α) (v : β) :
    List (α × List β) :=
  if dictContains m k then m.map (fun p => if p.1 = k then (p.1, p.2 ++ [v]) else p)
  else m ++ [(k, [v])]

/-- First-occurrence deduplication, as iterating a growing Python set /
`Series.unique()` does. -/
def dedupSeen {α : Type} [DecidableEq α] (seen : List α) : List α → List α
  | [] => []
  | x :: xs => if x ∈ seen then dedupSeen seen xs else x :: dedupSeen (seen ++ [x]) xs

/-! ### utils/graph.py : the topology graph -/

/-- A JSON-ish metadata value (kind tags, namespaces, labels, selectors …). -/
inductive MVal where
  | s (v : String)
  | i (v : Int)
  | b (v : Bool)
  | d (v : List (String × String))
deriving DecidableEq

abbrev NodeId := String

/-- A node's metadata dict. -/
abbrev Meta := List (String × MVal)

/-- `Graph` of utils/graph.py: adjacency, reverse adjacency and node metadata,
each a dict in insertion order (`adj`/`radj` are `defaultdict(list)`). -/
structure Graph where
  adj : List (NodeId × List (NodeId × String)) := []
  radj : List (NodeId × List (NodeId × String)) := []
  meta : List (NodeId × Meta) := []
deriving DecidableEq

def emptyGraph : Graph := {}

/-- `Graph.add_node`: touch `adj[nid]` and `radj[nid]`, create `meta[nid]`
when absent, then `meta[nid].update(**kw)`. -/
def addNode (g : Graph) (nid : NodeId) (kw : Meta) : Graph :=
  let meta1 := if dictContains g.meta nid then g.meta else g.meta ++ [(nid, [])]
  { adj := ddTouch g.adj nid
    radj := ddTouch g.radj nid
    meta := meta1.map (fun p => if p.1 = nid then (p.1, dictUpdate p.2 kw) else p) }

/-- `Graph.add_edge`: append to `adj[src]` and `radj[dst]` only — the node
metadata dict is not touched. -/
def addEdge (g : Graph) (src dst rel : NodeId) : Graph :=
  { g with adj := ddAppend g.adj src (dst, rel), radj := ddAppend g.radj dst (src, rel) }

/-- `Graph.neighbors(nid, direction)`: out-, in- or both-direction neighbour
pairs, with `.get(nid, [])` semantics. -/
def neighbors (g : Graph) (nid : NodeId) (dir : String) : List (NodeId × String) :=
  if dir = "out" then (dictGet g.adj nid).getD []
  else if dir = "in" then (dictGet g.radj nid).getD []
  else (dictGet g.adj nid).getD [] ++ (dictGet g.radj nid).getD []

/-- Every node id that occurs as a neighbour target anywhere in the graph;
used only to size the fuel of the traversals below. -/
def targetsOf (g : Graph) : List NodeId :=
  (g.adj.map (fun p => p.2.map Prod.fst)).flatten ++
    (g.radj.map (fun p => p.2.map Prod.fst)).flatten

/-- The effect of the inner `for nxt, _rel in neigh: if nxt not in seen: …`
loop of `Graph.bfs`: the new nodes, in order, checked against a growing
visited set. -/
def freshNodes (seen : List NodeId) : List (NodeId × String) → List NodeId
  | [] => []
  | (nxt, _) :: rest =>
      if nxt ∈ seen then freshNodes seen rest
      else nxt :: freshNodes (seen ++ [nxt]) rest

/-- The `while q:` loop of `Graph.bfs`.  `fuel` only bounds the number of
iterations: each iteration pops one queue entry and enqueues only
never-seen targets, so the run makes at most
`(targetsOf g).length + |initial seen| + |initial q|` iterations and the fuel
`bfs` passes is never exhausted. -/
def bfsAux (g : Graph) (dir : String) (maxHops : Nat) :
    Nat → List (NodeId × Nat) → List NodeId → List NodeId
  | _, [], seen => seen
  | 0, _ :: _, seen => seen
  | fuel + 1, (nid, d) :: q, seen =>
      if d = maxHops then bfsAux g dir maxHops fuel q seen
      else
        let fresh := freshNodes seen (neighbors g nid dir)
        bfsAux g dir maxHops fuel (q ++ fresh.map (fun n => (n, d + 1))) (seen ++ fresh)

/-- Whether the leftover placeholder loop at graph.py line 51,
`for nxt, _rel in (self.adj if direction=="out" else self.radj if
direction=="in" else None) or {}`, raises: iterating a dict yields its keys,
and unpacking a key string into `nxt, _rel` succeeds only for strings of
length exactly 2.  For direction `both` the expression is `None or {}` and
the loop body never runs. -/
def bfsRaises (g : Graph) (dir : String) : Bool :=
  (dir == "out" && g.adj.any (fun p => p.1.length != 2)) ||
    (dir == "in" && g.radj.any (fun p => p.1.length != 2))

/-- `Graph.bfs(start, max_hops, direction)`.  The placeholder loop runs on the
first pop whose depth differs from `max_hops`, i.e. as soon as there is a
known seed and `max_hops ≠ 0`; when it raises, the whole call raises. -/
def bfs (g : Graph) (start : List NodeId) (maxHops : Nat) (dir : String) :
    Except String (List NodeId) :=
  let seeds := start.filter (fun s => dictContains g.meta s)
  if !seeds.isEmpty && maxHops != 0 && bfsRaises g dir then
    Except.error "ValueError: too many values to unpack (expected 2)"
  else
    Except.ok (bfsAux g dir maxHops ((targetsOf g).length + seeds.length + 1)
      (seeds.map (fun s => (s, 0))) seeds)

/-- The `while q:` loop of `Graph.shortest_path_len` (fuelled like `bfsAux`). -/
def splAux (g : Graph) (b : NodeId) (dir : String) (maxHops : Nat) :
    Nat → List (NodeId × Nat) → List NodeId → Option Nat
  | _, [], _ => none
  | 0, _ :: _, _ => none
  | fuel + 1, (nid, d) :: q, seen =>
      if nid = b then some d
      else if d = maxHops then splAux g b dir maxHops fuel q seen
      else
        let fresh := freshNodes seen (neighbors g nid dir)
        splAux g b dir maxHops fuel (q ++ fresh.map (fun n => (n, d + 1))) (seen ++ fresh)

/-- `Graph.shortest_path_len(a, b, direction, max_hops)`: `None` when either
endpoint is not a metadata key, else BFS with early return on `b`. -/
def shortestPathLen (g : Graph) (a b : NodeId) (dir : String) (maxHops : Nat) : Option Nat :=
  if dictContains g.meta a && dictContains g.meta b then
    splAux g b dir maxHops ((targetsOf g).length + 2) [(a, 0)] [a]
  else none

/-- One `(src, dst, rel)` triple. -/
abbrev EdgeT := NodeId × NodeId × String

/-- All edges in adjacency order, duplicates included. -/
def edgesOf (g : Graph) : List EdgeT :=
  (g.adj.map (fun p => p.2.map (fun q => (p.1, q.1, q.2)))).flatten

/-- The `seen`-set filter of `Graph._iter_edges`. -/
def dedupEdges (seen : List EdgeT) : List EdgeT → List EdgeT
  | [] => []
  | e :: rest => if e ∈ seen then dedupEdges seen rest else e :: dedupEdges (seen ++ [e]) rest

/-- `Graph._iter_edges`: iterate the adjacency dict and deduplicate
`(src, dst, rel)` triples. -/
def iterEdges (g : Graph) : List EdgeT :=
  dedupEdges [] (edgesOf g)

/-- `Graph.to_json`, at the level of the JSON document's data (the
`json.dumps`/`json.loads` string layer is the standard library's and is
modelled as the identity on this structured value). -/
def toJsonData (g : Graph) : List (NodeId × Meta) × List EdgeT :=
  (g.meta, iterEdges g)

/-- `Graph.from_json`: `add_node` for every metadata entry in order, then
`add_edge` for every edge in order. -/
def fromJsonData (metaL : List (NodeId × Meta)) (edges : List EdgeT) : Graph :=
  let g1 := metaL.foldl (fun g p => addNode g p.1 p.2) emptyGraph
  edges.foldl (fun g e => addEdge g e.1 e.2.1 e.2.2) g1

/-- `from_json(to_json(g))`. -/
def roundTrip (g : Graph) : Graph :=
  fromJsonData (toJsonData g).1 (toJsonData g).2

/-- The representation invariant a Python dict-of-dicts always has: unique
node keys, and unique keys inside each metadata value. -/
def wfMeta (m : List (NodeId × Meta)) : Prop :=
  (m.map Prod.fst).Nodup ∧ ∀ p ∈ m, (p.2.map Prod.fst).Nodup

instance (m : List (NodeId × Meta)) : Decidable (wfMeta m) := by
  unfold wfMeta; infer_instance

/-! ### utils/graph.py : build_from_snapshot

Snapshot records carry the fields the builder reads; further fields of the
source dicts (labels …) travel in `extra` and land in the node metadata like
the `**{k: v for k, v in p.items() if …}` expansions do.  An absent optional
field models an absent-or-falsy dict entry (`if "node" in p and p["node"]`). -/

structure PodOwner where
  kind : String
  name : String
deriving DecidableEq

structure SnapNode where
  name : String
  extra : Meta := []
deriving DecidableEq

structure SnapPod where
  name : String
  ns : String
  node : Option String := none
  owner : Option PodOwner := none
  extra : Meta := []
deriving DecidableEq

structure SnapRS where
  name : String
  ns : String
  owner : Option PodOwner := none
deriving DecidableEq

structure SnapDeploy where
  name : String
  ns : String
deriving DecidableEq

structure SnapService where
  name : String
  ns : String
  selector : List (String × String) := []
deriving DecidableEq

structure SnapEndpoints where
  svc : String
  ns : String
  pods : List String := []
deriving DecidableEq

structure SnapRoute where
  name : String
  ns : String
  to_svc : String
deriving DecidableEq

structure SnapIngress where
  name : String
  ns : String
  to_svc : String
deriving DecidableEq

structure SnapPVC where
  name : String
  ns : String
  pod : Option String := none
  pv : Option String := none
deriving DecidableEq

structure SnapPV where
  name : String
deriving DecidableEq

structure SnapHPA where
  name : String
  ns : String
  target_deploy : String
deriving DecidableEq

structure SnapNetpol where
  name : String
  ns : String
  selects : List (String × String) := []
deriving DecidableEq

structure Snapshot where
  nodes : List SnapNode := []
  pods : List SnapPod := []
  replicasets : List SnapRS := []
  deployments : List SnapDeploy := []
  services : List SnapService := []
  endpoints : List SnapEndpoints := []
  routes : List SnapRoute := []
  ingresses : List SnapIngress := []
  pvcs : List SnapPVC := []
  pvs : List SnapPV := []
  hpas : List SnapHPA := []
  netpols : List SnapNetpol := []
deriving DecidableEq

/-- The pod-loop step of `build_from_snapshot`: add the pod node, index its
bare name, then the `runs_on` and `owned_by` edges. -/
def buildPodStep (acc : Graph × List (String × List NodeId)) (p : SnapPod) :
    Graph × List (String × List NodeId) :=
  let nid := "pod/" ++ p.ns ++ "/" ++ p.name
  let kw : Meta :=
    [("kind", MVal.s "Pod"), ("namespace", MVal.s p.ns)] ++
      (match p.node with | some n => [("node", MVal.s n)] | none => []) ++
      (match p.owner with
        | some o => [("owner", MVal.d [("kind", o.kind), ("name", o.name)])]
        | none => []) ++ p.extra
  let g := addNode acc.1 nid kw
  let idx := ddAppend acc.2 p.name nid
  let g := match p.node with
    | some nodeName => addEdge g nid ("node/" ++ nodeName) "runs_on"
    | none => g
  let g := match p.owner with
    | some o =>
        addEdge g nid
          (String.mk (o.kind.data.map Char.toLower) ++ "/" ++ p.ns ++ "/" ++ o.name)
          "owned_by"
    | none => g
  (g, idx)

/-- The `nodes` section of `build_from_snapshot`. -/
def buildNodesStage (g : Graph) (l : List SnapNode) : Graph :=
  l.foldl (fun g n => addNode g ("node/" ++ n.name) ([("kind", MVal.s "Node")] ++ n.extra)) g

/-- The `replicasets` section. -/
def buildRSStage (g : Graph) (l : List SnapRS) : Graph :=
  l.foldl (fun g rs =>
    let rid := "replicaset/" ++ rs.ns ++ "/" ++ rs.name
    let g2 := addNode g rid [("kind", MVal.s "ReplicaSet"), ("namespace", MVal.s rs.ns)]
    match rs.owner with
    | some o => addEdge g2 rid ("deployment/" ++ rs.ns ++ "/" ++ o.name) "owned_by"
    | none => g2) g

/-- The `deployments` section. -/
def buildDeployStage (g : Graph) (l : List SnapDeploy) : Graph :=
  l.foldl (fun g d =>
    addNode g ("deployment/" ++ d.ns ++ "/" ++ d.name)
      [("kind", MVal.s "Deployment"), ("namespace", MVal.s d.ns)]) g

/-- The `services` section. -/
def buildServiceStage (g : Graph) (l : List SnapService) : Graph :=
  l.foldl (fun g s =>
    addNode g ("service/" ++ s.ns ++ "/" ++ s.name)
      [("kind", MVal.s "Service"), ("namespace", MVal.s s.ns),
        ("selector", MVal.d s.selector)]) g

/-- The `endpoints` section: fan edges out to every indexed pod id. -/
def buildEndpointsStage (podIndex : List (String × List NodeId)) (g : Graph)
    (l : List SnapEndpoints) : Graph :=
  l.foldl (fun g e =>
    let sid := "service/" ++ e.ns ++ "/" ++ e.svc
    e.pods.foldl (fun g p =>
      ((dictGet podIndex p).getD []).foldl
        (fun g podId => addEdge g sid podId "routes_to") g) g) g

/-- The `routes` section. -/
def buildRouteStage (g : Graph) (l : List SnapRoute) : Graph :=
  l.foldl (fun g r =>
    let rid := "route/" ++ r.ns ++ "/" ++ r.name
    let g2 := addNode g rid [("kind", MVal.s "Route"), ("namespace", MVal.s r.ns)]
    addEdge g2 rid ("service/" ++ r.ns ++ "/" ++ r.to_svc) "exposes") g

/-- The `ingresses` section. -/
def buildIngressStage (g : Graph) (l : List SnapIngress) : Graph :=
  l.foldl (fun g ing =>
    let iid := "ingress/" ++ ing.ns ++ "/" ++ ing.name
    let g2 := addNode g iid [("kind", MVal.s "Ingress"), ("namespace", MVal.s ing.ns)]
    addEdge g2 iid ("service/" ++ ing.ns ++ "/" ++ ing.to_svc) "exposes") g

/-- The `pvcs` section. -/
def buildPVCStage (podIndex : List (String × List NodeId)) (g : Graph)
    (l : List SnapPVC) : Graph :=
  l.foldl (fun g pvc =>
    let pcid := "pvc/" ++ pvc.ns ++ "/" ++ pvc.name
    let g2 := addNode g pcid [("kind", MVal.s "PVC"), ("namespace", MVal.s pvc.ns)]
    let g3 := match pvc.pv with
      | some pv => addEdge g2 pcid ("pv/" ++ pv) "binds"
      | none => g2
    match pvc.pod with
    | some podName =>
        ((dictGet podIndex podName).getD []).foldl
          (fun g podId => addEdge g podId pcid "mounts") g3
    | none => g3) g

/-- The `pvs` section. -/
def buildPVStage (g : Graph) (l : List SnapPV) : Graph :=
  l.foldl (fun g pv => addNode g ("pv/" ++ pv.name) [("kind", MVal.s "PV")]) g

/-- The `hpas` section. -/
def buildHPAStage (g : Graph) (l : List SnapHPA) : Graph :=
  l.foldl (fun g h =>
    let hid := "hpa/" ++ h.ns ++ "/" ++ h.name
    let g2 := addNode g hid [("kind", MVal.s "HPA"), ("namespace", MVal.s h.ns)]
    addEdge g2 hid ("deployment/" ++ h.ns ++ "/" ++ h.target_deploy) "targets") g

/-- The `netpols` section (nodes only, no edges). -/
def buildNetpolStage (g : Graph) (l : List SnapNetpol) : Graph :=
  l.foldl (fun g np =>
    addNode g ("netpol/" ++ np.ns ++ "/" ++ np.name)
      [("kind", MVal.s "NetworkPolicy"), ("namespace", MVal.s np.ns),
        ("selects", MVal.d np.selects)]) g

/-- `build_from_snapshot(snapshot)`: all sections in source order, the pods
section also building the bare-pod-name index used by endpoints and PVCs. -/
def buildFromSnapshot (snap : Snapshot) : Graph :=
  let g0 := buildNodesStage emptyGraph snap.nodes
  let gp := snap.pods.foldl buildPodStep (g0, [])
  let podIndex := gp.2
  let g1 := buildRSStage gp.1 snap.replicasets
  let g2 := buildDeployStage g1 snap.deployments
  let g3 := buildServiceStage g2 snap.services
  let g4 := buildEndpointsStage podIndex g3 snap.endpoints
  let g5 := buildRouteStage g4 snap.routes
  let g6 := buildIngressStage g5 snap.ingresses
  let g7 := buildPVCStage podIndex g6 snap.pvcs
  let g8 := buildPVStage g7 snap.pvs
  let g9 := buildHPAStage g8 snap.hpas
  buildNetpolStage g9 snap.netpols

/-! ### utils/episodes.py : data contracts and build_episodes

An event table is a list of rows plus the list of column names present; a
cell is `Option`-valued, `none` standing for an absent column or a null cell
(pandas `None`/`NaT`).  Timestamps are UTC nanosecond epochs (`Timestamp.value`).
Python's salted `hash(str)` is an explicit parameter `h` of `buildEpisodes`. -/

/-- One row of the event table. -/
structure Row where
  ts : Option Int := none
  source : Option String := none
  nspace : Option String := none
  pod : Option String := none
  node : Option String := none
  level : Option String := none
  verb : Option String := none
  route : Option String := none
  msg : Option String := none
  code : Option Int := none
  container_restart : Option ℚ := none
  rollout_in_window : Option ℚ := none
deriving DecidableEq

/-- The event table: the columns it has, and its rows. -/
structure Table where
  cols : List String := []
  rows : List Row := []
deriving DecidableEq

/-- The string-valued cell of a row under a column name (the columns used as
grouping keys and entity values). -/
def getStrCol (r : Row) (c : String) : Option String :=
  if c = "namespace" then r.nspace
  else if c = "pod" then r.pod
  else if c = "node" then r.node
  else if c = "route" then r.route
  else if c = "source" then r.source
  else if c = "level" then r.level
  else if c = "verb" then r.verb
  else if c = "msg" then r.msg
  else none

/-- The `Event` dataclass as `build_episodes` fills it (there `msg` is always
a string: `str(row.get("msg"))[:400]`). -/
structure Event where
  ts : Int
  source : String := ""
  nspace : Option String := none
  pod : Option String := none
  node : Option String := none
  level : Option String := none
  verb : Option String := none
  code : Option Int := none
  route : Option String := none
  msg : String := ""
deriving DecidableEq

/-- The `Episode` dataclass (`endT` models the `end` field). -/
structure Episode where
  episode_id : String := ""
  start : Int := 0
  endT : Int := 0
  entities : List (String × List String) := []
  features : List (String × ℚ) := []
  events : List Event := []
deriving DecidableEq

/-- Python's `str(...)` on an optional message: `str(None) = "None"`. -/
def pyStrOfMsg : Option String → String
  | none => "None"
  | some s => s

/-- One sampled event: `Event(ts=…, source=row.get("source",""), …,
msg=str(row.get("msg"))[:400])`.  Slicing is per character. -/
def toEvent (r : Row) : Event :=
  { ts := r.ts.getD 0
    source := r.source.getD ""
    nspace := r.nspace
    pod := r.pod
    node := r.node
    level := r.level
    verb := r.verb
    code := r.code
    route := r.route
    msg := String.mk ((pyStrOfMsg r.msg).data.take 400) }

/-- Decimal digits of `n`, most significant first; `fuel > n` suffices. -/
def natToDecL : Nat → Nat → List Char
  | 0, _ => []
  | fuel + 1, n =>
      if n < 10 then [Char.ofNat (48 + n)]
      else natToDecL fuel (n / 10) ++ [Char.ofNat (48 + n % 10)]

/-- Python's `str(int)`: decimal digits, a leading `-` when negative. -/
def intToDecL (i : Int) : List Char :=
  if i < 0 then '-' :: natToDecL (1 + (-i).toNat) (-i).toNat
  else natToDecL (1 + i.toNat) i.toNat

/-- One lowercase hex digit. -/
def hexChar (d : Nat) : Char :=
  if d < 10 then Char.ofNat (48 + d) else Char.ofNat (87 + d)

/-- `k` hex digits of `n`, most significant first, zero-padded. -/
def toHexPad : Nat → Nat → List Char
  | 0, _ => []
  | k + 1, n => toHexPad k (n / 16) ++ [hexChar (n % 16)]

/-- `"%07x" % n` for `n < 16^7`: exactly seven lowercase hex digits. -/
def toHex7L (n : Nat) : List Char :=
  toHexPad 7 n

/-- Numeric value of a decimal digit string (for injectivity proofs). -/
def decVal (l : List Char) : Nat :=
  l.foldl (fun acc c => acc * 10 + (c.toNat - 48)) 0

/-- Numeric value of a hex digit string (for injectivity proofs). -/
def hexVal (l : List Char) : Nat :=
  l.foldl (fun acc c => acc * 16 + (if c.toNat ≤ 57 then c.toNat - 48 else c.toNat - 87)) 0

/-- `f"{str(wstart.value)}::{hash(str(gkey)) & 0xfffffff:07x}"`, with the
salted string hash as the parameter `h`. -/
def episodeId (h : String → Nat) (wstartNs : Int) (gkeyStr : String) : String :=
  String.mk (intToDecL wstartNs ++ ':' :: ':' :: toHex7L (h gkeyStr % 268435456))

/-- A group key: `"_all"` when no key column exists, otherwise the tuple of
(possibly null) key-column cells. -/
abbrev GroupKey := String ⊕ List (Option String)

/-- `str(gkey)` as hashed by the episode-id line.  The exact rendering of
Python's tuple `repr` is immaterial to every theorem below because the hash
function is a parameter; this rendering is injective on the keys of one
grouping all the same. -/
def strOfKey : GroupKey → String
  | Sum.inl s => s
  | Sum.inr l =>
      "(" ++ String.intercalate ", " (l.map (fun o =>
        match o with
        | some s => "'" ++ s ++ "'"
        | none => "nan")) ++ ")"

/-- Window start of a timestamp: epoch-aligned flooring to a multiple of the
window (`pd.Grouper(freq=window)`; `10min` windows divide a day evenly, so
the default `start_day` origin coincides with epoch alignment). -/
def winStart (windowNs ts : Int) : Int :=
  ts - ts.emod windowNs

/-- The per-group features dict of `build_episodes` — note there is no
`rollout_in_window` entry. -/
def groupFeatures (cols : List String) (gdf : List Row) : List (String × ℚ) :=
  let total := gdf.length
  let errors := if "level" ∈ cols then (gdf.filter (fun r => r.level = some "error")).length
    else 0
  let errQ : ℚ := if total ≠ 0 then (errors : ℚ) / (total : ℚ) else 0
  let restarts : ℚ := if "container_restart" ∈ cols then
    (gdf.map (fun r => r.container_restart.getD 0)).sum else 0
  let http5 := if "code" ∈ cols then
    (gdf.filter (fun r =>
      match r.code with
      | some c => 500 ≤ c
      | none => false)).length
    else 0
  [("count", (total : ℚ)), ("error_ratio", errQ), ("restarts", restarts),
    ("http5xx", (http5 : ℚ))]

/-- The entities dict of a group: for each of namespace/pod/node/route present
in the table, the distinct non-null non-empty string values in first-seen
order; kinds with no value are left out. -/
def groupEntities (cols : List String) (gdf : List Row) : List (String × List String) :=
  (["namespace", "pod", "node", "route"].filter (fun c => c ∈ cols)).filterMap (fun c =>
    let vals := (dedupSeen [] (gdf.filterMap (fun r => getStrCol r c))).filter (fun v => v ≠ "")
    if vals.isEmpty then none else some (c, vals))

/-- One episode from a window's group. -/
def mkEpisode (h : String → Nat) (cols : List String) (windowNs wstart : Int)
    (gk : GroupKey) (gdf : List Row) : Episode :=
  { episode_id := episodeId h wstart (strOfKey gk)
    start := wstart
    endT := wstart + windowNs
    entities := groupEntities cols gdf
    features := groupFeatures cols gdf
    events := (gdf.take 200).map toEvent }

/-- The groups of one window: keyed `_all` when no key column exists, else by
the tuple of key-column cells (`dropna=False`: null cells group too).  pandas
enumerates groups sorted by key; the enumeration order is immaterial to every
theorem below, so groups appear in first-seen order here. -/
def windowGroups (keyCols : List String) (wdf : List Row) : List (GroupKey × List Row) :=
  if keyCols.isEmpty then [(Sum.inl "_all", wdf)]
  else
    (dedupSeen [] (wdf.map (fun r => keyCols.map (getStrCol r)))).map (fun k =>
      (Sum.inr k, wdf.filter (fun r => keyCols.map (getStrCol r) = k)))

/-- `build_episodes(df, window, keys)`: fatal when the `ts` column is missing;
rows with a null `ts` are dropped by the grouper; windows in ascending order,
then per-window grouping by the key columns present. -/
def buildEpisodes (h : String → Nat) (t : Table) (windowNs : Int) (keys : List String) :
    Except String (List Episode) :=
  if "ts" ∉ t.cols then Except.error "df must include a ts column (datetime)"
  else
    let rows := t.rows.filter (fun r => r.ts.isSome)
    let wstarts := List.insertionSort (fun a b => a ≤ b)
      (dedupSeen [] (rows.map (fun r => winStart windowNs (r.ts.getD 0))))
    let keyCols := keys.filter (fun k => k ∈ t.cols)
    Except.ok ((wstarts.map (fun w =>
      let wdf := rows.filter (fun r => winStart windowNs (r.ts.getD 0) = w)
      (windowGroups keyCols wdf).map (fun p => mkEpisode h t.cols windowNs w p.1 p.2))).flatten)

/-! ### utils/episodes.py : the rule engine

A rule is a dict; optional keys are `Option` fields, `dict.get` defaults are
applied where `apply_rules` applies them.  A raised exception (`KeyError`
from the operator-dict lookup in `_has_signal`, `ValueError` from the
placeholder loop in `Graph.bfs`) is `Except.error` and propagates. -/

/-- A signal, a single-key dict in the source; the first present key of
`metric`/`event`/`log_pattern` wins, in that order. -/
structure Sig where
  metric : Option String := none
  op : Option String := none
  value : Option ℚ := none
  event : Option String := none
  log_pattern : Option String := none
deriving DecidableEq

/-- The `when:` clause. -/
structure WhenCond where
  all : Option (List Sig) := none
  any : Option (List Sig) := none
deriving DecidableEq

/-- The `score:` clause. -/
structure ScoreCfg where
  temporal : Option ℚ := none
  topology : Option ℚ := none
  magnitude : Option ℚ := none
  change_flag : Option ℚ := none
deriving DecidableEq

/-- One rule. -/
structure Rule where
  id : Option String := none
  reason : Option String := none
  when_ : Option WhenCond := none
  root_component : Option String := none
  score : Option ScoreCfg := none
  evidence : List String := []
deriving DecidableEq

/-- The `CandidateRoot` dataclass. -/
structure CandidateRoot where
  component : String
  reason : String
  evidence : List String
  score_breakdown : List (String × ℚ)
  score : ℚ
deriving DecidableEq

/-- The operator dict literal of `_has_signal`,
`{"<": x<val, "<=": x<=val, ">": x>val, ">=": x>=val, "==": x==val,
"!=": x!=val}[op]`: an operator outside the six keys raises `KeyError`. -/
def cmpOps (op : String) (x v : ℚ) : Except String Bool :=
  if op = "<" then Except.ok (decide (x < v))
  else if op = "<=" then Except.ok (decide (x ≤ v))
  else if op = ">" then Except.ok (decide (v < x))
  else if op = ">=" then Except.ok (decide (v ≤ x))
  else if op = "==" then Except.ok (decide (x = v))
  else if op = "!=" then Except.ok (decide (x ≠ v))
  else Except.error ("KeyError: " ++ op)

/-- Contiguous-substring scan: `pat` occurs in the haystack at some offset. -/
def subScan (pat : List Char) : List Char → Bool
  | [] => pat.isEmpty
  | c :: rest => pat.isPrefixOf (c :: rest) || subScan pat rest

/-- Case-insensitive substring test, `pat.lower() in msg.lower()` (an
`Event.msg` of the engine's episodes is already a string, so the `or ""`
guard of the source is the identity here). -/
def msgContains (pat : String) (msg : String) : Bool :=
  subScan (pat.data.map Char.toLower) (msg.data.map Char.toLower)

/-- `_has_signal(ep, sig)`: metric comparison (false when the feature is
absent), else substring scan for `event`/`log_pattern`, else false. -/
def hasSignal (ep : Episode) (sig : Sig) : Except String Bool :=
  match sig.metric with
  | some name =>
      let op := sig.op.getD ">"
      let v := sig.value.getD 0
      match dictGet ep.features name with
      | none => Except.ok false
      | some x => cmpOps op x v
  | none =>
      match sig.event with
      | some pat => Except.ok (ep.events.any (fun e => msgContains pat e.msg))
      | none =>
          match sig.log_pattern with
          | some pat => Except.ok (ep.events.any (fun e => msgContains pat e.msg))
          | none => Except.ok false

/-- `all(_has_signal(ep, s) for s in sigs)`: short-circuits on the first
false, so a later signal's exception is not raised. -/
def allSigs (ep : Episode) : List Sig → Except String Bool
  | [] => Except.ok true
  | s :: rest =>
      match hasSignal ep s with
      | Except.error e => Except.error e
      | Except.ok false => Except.ok false
      | Except.ok true => allSigs ep rest

/-- `any(...)`: short-circuits on the first true. -/
def anySigs (ep : Episode) : List Sig → Except String Bool
  | [] => Except.ok false
  | s :: rest =>
      match hasSignal ep s with
      | Except.error e => Except.error e
      | Except.ok true => Except.ok true
      | Except.ok false => anySigs ep rest

/-- The predicate of one rule: `all` first, else `any`, else true. -/
def evalWhen (ep : Episode) (c : WhenCond) : Except String Bool :=
  match c.all with
  | some sigs => allSigs ep sigs
  | none =>
      match c.any with
      | some sigs => anySigs ep sigs
      | none => Except.ok true

/-- Focus selection: first of `pod`, `node`, `namespace` present with a
non-empty value list; the value is used verbatim when it contains `/`, else
prefixed with the kind. -/
def focusKey (ep : Episode) : List String → Option String
  | [] => none
  | k :: rest =>
      match dictGet ep.entities k with
      | some (v :: _) => some (if v.data.contains '/' then v else k ++ "/" ++ v)
      | _ => focusKey ep rest

def focusOf (ep : Episode) : Option String :=
  focusKey ep ["pod", "node", "namespace"]

/-- Python's `x or 99` on an optional hop count: `None` and `0` are falsy. -/
def pyOr99 : Option Nat → Nat
  | none => 99
  | some 0 => 99
  | some d => d

/-- Python's `min(..., key=lambda x: x[1])`: the first entry with the least
second component. -/
def minBySnd (best : NodeId × Nat) : List (NodeId × Nat) → NodeId × Nat
  | [] => best
  | x :: rest => minBySnd (if x.2 < best.2 then x else best) rest

/-- Python's `a or dflt` on an optional string (`None` and `""` are falsy). -/
def pyOrS (a : Option String) (dflt : String) : String :=
  match a with
  | none => dflt
  | some s => if s = "" then dflt else s

/-- `round(x, 4)` (Python rounds floats half-to-even; the difference to
half-up can only show at an exact half of 10⁻⁴, which no theorem below
depends on). -/
def round4 (x : ℚ) : ℚ :=
  ((round (x * 10000) : ℤ) : ℚ) / 10000

/-- The topology part of `apply_rules` for a firing rule: neighbourhood
search, prefix filter, `(n, shortest_path_len(focus, n) or 99)` distances,
`min` by distance, and the decayed score guarded by `hop != 99`.  Returns
the pair `(topo_score, target)`. -/
def topoFor (g : Graph) (focus : Option String) (rootComponent : Option String) :
    Except String (ℚ × Option NodeId) :=
  match rootComponent, focus with
  | some rc, some f =>
      match bfs g [f] 3 "both" with
      | Except.error e => Except.error e
      | Except.ok neigh =>
          match neigh.filter (fun n => (rc ++ "/").data.isPrefixOf n.data) with
          | [] => Except.ok (0, none)
          | m0 :: ms =>
              let d0 := (m0, pyOr99 (shortestPathLen g f m0 "both" 8))
              let best := minBySnd d0
                (ms.map (fun n => (n, pyOr99 (shortestPathLen g f n "both" 8))))
              Except.ok
                (if best.2 ≠ 99 then max 0 (1 - (best.2 : ℚ) / 5) else 0, some best.1)
  | _, _ => Except.ok (0, none)

/-- The candidate one firing rule emits. -/
def candFor (ep : Episode) (g : Graph) (r : Rule) : Except String CandidateRoot :=
  let focus := focusOf ep
  match topoFor g focus r.root_component with
  | Except.error e => Except.error e
  | Except.ok ts =>
      let sc := r.score.getD {}
      let temporal := sc.temporal.getD (3 / 10)
      let magnitude := sc.magnitude.getD (3 / 10) *
        min 1 ((dictGet ep.features "error_ratio").getD 0)
      let change := sc.change_flag.getD 0 * (dictGet ep.features "rollout_in_window").getD 0
      let topoW := sc.topology.getD (2 / 5)
      Except.ok
        { component := pyOrS ts.2 (pyOrS focus "cluster")
          reason := r.reason.getD (r.id.getD "rule")
          evidence := r.evidence
          score_breakdown := [("temporal", temporal), ("topology", topoW * ts.1),
            ("magnitude", magnitude), ("change", change)]
          score := round4 (temporal + topoW * ts.1 + magnitude + change) }

/-- The rule loop of `apply_rules`: skip non-firing rules, append the
candidate of each firing rule, propagate exceptions. -/
def applyRulesGo (ep : Episode) (g : Graph) : List Rule → List CandidateRoot →
    Except String (List CandidateRoot)
  | [], acc => Except.ok acc
  | r :: rest, acc =>
      match evalWhen ep (r.when_.getD {}) with
      | Except.error e => Except.error e
      | Except.ok false => applyRulesGo ep g rest acc
      | Except.ok true =>
          match candFor ep g r with
          | Except.error e => Except.error e
          | Except.ok c => applyRulesGo ep g rest (acc ++ [c])

/-- Candidate order: descending score (Python's stable `sort(key=…,
reverse=True)`; ties keep rule order, which `insertionSort` preserves). -/
def candGE (a b : CandidateRoot) : Prop := b.score ≤ a.score

instance : DecidableRel candGE := fun a b => inferInstanceAs (Decidable (b.score ≤ a.score))

/-- `apply_rules(ep, rules, graph)`: evaluate every rule, sort by score
descending, keep the top 3. -/
def applyRules (ep : Episode) (rules : List Rule) (g : Graph) :
    Except String (List CandidateRoot) :=
  match applyRulesGo ep g rules [] with
  | Except.error e => Except.error e
  | Except.ok cands => Except.ok ((List.insertionSort candGE cands).take 3)

/-! ### The claims, formalised

Each `claimCkStatement` renders one claim of the specification as a
proposition over the embedding above, word for word where the words pin the
meaning down. -/

/-- First minimum of a list of naturals. -/
def minNat? : List Nat → Option Nat
  | [] => none
  | x :: xs => some (xs.foldl min x)

/-- The hop count as the claim about the topology score words it: the
smallest `shortest_path_len(focus, n)` over the nodes `n` of
`bfs([focus], 3, "both")` whose id starts with `root_component ++ "/"`
(matches with no path are dropped). -/
def claimHops (g : Graph) (f : NodeId) (rc : String) : Option Nat :=
  match bfs g [f] 3 "both" with
  | Except.error _ => none
  | Except.ok neigh =>
      minNat? ((neigh.filter (fun n => (rc ++ "/").data.isPrefixOf n.data)).filterMap
        (fun n => shortestPathLen g f n "both" 8))

/-- `max(0, 1 - 0.2 × hops)` over `claimHops`; 0 when there is no match. -/
def claimTopoScore (g : Graph) (f : NodeId) (rc : String) : ℚ :=
  match claimHops g f rc with
  | some hop => max 0 (1 - (hop : ℚ) / 5)
  | none => 0

/-- The hop count the code actually uses: `shortest_path_len(focus, n) or 99`
per match, minimised — a distance of 0 is coerced to 99 by the `or`. -/
def codeHops (g : Graph) (f : NodeId) (rc : String) : Option Nat :=
  match bfs g [f] 3 "both" with
  | Except.error _ => none
  | Except.ok neigh =>
      minNat? ((neigh.filter (fun n => (rc ++ "/").data.isPrefixOf n.data)).map
        (fun n => pyOr99 (shortestPathLen g f n "both" 8)))

/-- The decayed score from `codeHops`, guarded by `hop != 99`. -/
def codeTopoScore (g : Graph) (f : NodeId) (rc : String) : ℚ :=
  match codeHops g f rc with
  | some hop => if hop ≠ 99 then max 0 (1 - (hop : ℚ) / 5) else 0
  | none => 0

/-- C1 as claimed: in every graph `build_from_snapshot` returns, both
endpoints of every edge are keys of the node metadata map. -/
def claimC1Statement : Prop :=
  ∀ snap : Snapshot, ∀ e ∈ edgesOf (buildFromSnapshot snap),
    dictContains (buildFromSnapshot snap).meta e.1 = true ∧
      dictContains (buildFromSnapshot snap).meta e.2.1 = true

/-- C2 as claimed: for a rule with a `root_component` and a present focus,
the emitted topology term is the rule's topology weight times
`max(0, 1 - 0.2 × hops)` with `hops` from `claimHops` (so a hop distance of
0 yields an unweighted score of 1). -/
def claimC2Statement : Prop :=
  ∀ (g : Graph) (ep : Episode) (r : Rule) (rc f : String) (cs : List CandidateRoot)
    (c : CandidateRoot),
    r.root_component = some rc → focusOf ep = some f →
    applyRules ep [r] g = Except.ok cs → c ∈ cs →
    dictGet c.score_breakdown "topology" =
      some ((r.score.getD {}).topology.getD (2 / 5) * claimTopoScore g f rc)

/-- C3 as claimed: a metric signal with an operator outside the six
comparison operators, or a signal with none of the three known keys, simply
evaluates to false — evaluation never raises. -/
def claimC3Statement : Prop :=
  ∀ (ep : Episode) (sig : Sig),
    (∀ name op, sig.metric = some name → sig.op = some op →
      op ∉ (["<", "<=", ">", ">=", "==", "!="] : List String) →
      hasSignal ep sig = Except.ok false) ∧
    (sig.metric = none → sig.event = none → sig.log_pattern = none →
      hasSignal ep sig = Except.ok false)

/-- C4 as claimed (its weakest consequence: the claim further equates the
value with the group maximum of the column): whenever the input table has a
`rollout_in_window` column, every episode's features dict has a
`rollout_in_window` entry. -/
def claimC4Statement : Prop :=
  ∀ (h : String → Nat) (t : Table) (w : Int) (keys : List String) (eps : List Episode),
    "rollout_in_window" ∈ t.cols → buildEpisodes h t w keys = Except.ok eps →
    ∀ ep ∈ eps, (dictGet ep.features "rollout_in_window").isSome = true

/-- C5 as claimed: episode ids are stable across two runs (Python's salted
string hash is the per-process `h` parameter, so two runs are two hash
functions), and distinct groups of one window get distinct ids. -/
def claimC5Statement : Prop :=
  (∀ (h1 h2 : String → Nat) (t : Table) (w : Int) (keys : List String)
    (e1 e2 : List Episode),
    buildEpisodes h1 t w keys = Except.ok e1 → buildEpisodes h2 t w keys = Except.ok e2 →
    e1.map (fun e => e.episode_id) = e2.map (fun e => e.episode_id)) ∧
  (∀ (h : String → Nat) (t : Table) (w : Int) (keys : List String) (eps : List Episode)
    (a b : Episode),
    buildEpisodes h t w keys = Except.ok eps → a ∈ eps → b ∈ eps →
    a.start = b.start → a ≠ b → a.episode_id ≠ b.episode_id)

/-- C6 as claimed: every emitted candidate's score is the rounded sum of its
four breakdown entries, and every entry is non-negative. -/
def claimC6Statement : Prop :=
  ∀ (ep : Episode) (rules : List Rule) (g : Graph) (cs : List CandidateRoot)
    (c : CandidateRoot),
    applyRules ep rules g = Except.ok cs → c ∈ cs →
    c.score = round4 ((c.score_breakdown.map Prod.snd).sum) ∧
      ∀ p ∈ c.score_breakdown, 0 ≤ p.2

/-- Non-negative rule weights (after the `dict.get` defaults). -/
def ruleWeightsNonneg (r : Rule) : Prop :=
  0 ≤ (r.score.getD {}).temporal.getD (3 / 10) ∧
    0 ≤ (r.score.getD {}).topology.getD (2 / 5) ∧
    0 ≤ (r.score.getD {}).magnitude.getD (3 / 10) ∧
    0 ≤ (r.score.getD {}).change_flag.getD 0

/-! ### Concrete inputs for the counterexamples and witnesses -/

/-- The constant hash, one legal value of Python's salted `hash ∘ str`. -/
def hashZero : String → Nat := fun _ => 0

/-- A pod scheduled on a node that the snapshot does not declare. -/
def snapCex1 : Snapshot := { pods := [{ name := "p1", ns := "a", node := some "n1" }] }

def gCex2 : Graph := addNode emptyGraph "node/x" [("kind", MVal.s "Node")]

def epCex2 : Episode := { entities := [("node", ["x"])] }

def ruleCex2 : Rule := { root_component := some "node" }

def candsCex2 : List CandidateRoot :=
  ((applyRules epCex2 [ruleCex2] gCex2).toOption).getD []

/-- A placeholder candidate for `headD`. -/
def cand0 : CandidateRoot :=
  { component := "", reason := "", evidence := [], score_breakdown := [], score := 0 }

def epCex3 : Episode := { features := [("count", 1)] }

def sigCex3 : Sig := { metric := some "count", op := some "~" }

def tCex4 : Table :=
  { cols := ["ts", "pod", "rollout_in_window"],
    rows := [{ ts := some 0, pod := some "p", rollout_in_window := some 1 }] }

def epsCex4 : List Episode :=
  ((buildEpisodes hashZero tCex4 600000000000 ["namespace", "pod", "node"]).toOption).getD []

def tCex5 : Table :=
  { cols := ["ts", "pod"],
    rows := [{ ts := some 0, pod := some "a" }, { ts := some 0, pod := some "b" }] }

def epsCex5 : List Episode :=
  ((buildEpisodes hashZero tCex5 600000000000 ["namespace", "pod", "node"]).toOption).getD []

def ruleCex6 : Rule := { score := some { temporal := some (-1) } }

def candsCex6 : List CandidateRoot :=
  ((applyRules {} [ruleCex6] emptyGraph).toOption).getD []

/-- One known node with an id of length ≠ 2; expanding it runs the
placeholder loop of graph.py line 51. -/
def gBug7 : Graph := addNode emptyGraph "node/n1" [("kind", MVal.s "Node")]

/-- A two-node graph with one edge, for the round-trip witness. -/
def gW8 : Graph :=
  addEdge (addNode (addNode emptyGraph "node/a" [("kind", MVal.s "Node")])
    "pod/x/b" [("kind", MVal.s "Pod")]) "pod/x/b" "node/a" "runs_on"

def gW9 : Graph := addNode emptyGraph "deployment/d/x" []

/-- The scenario-1 graph: `pod/shop/checkout-1` runs on `node/n1`. -/
def gW2 : Graph :=
  buildFromSnapshot
    { nodes := [{ name := "n1" }],
      pods := [{ name := "checkout-1", ns := "shop", node := some "n1" }] }

def epW2 : Episode :=
  { entities := [("pod", ["pod/shop/checkout-1"])], features := [("error_ratio", 1)] }

def ruleW2 : Rule := { root_component := some "node" }

def candsW2 : List CandidateRoot :=
  ((applyRules epW2 [ruleW2] gW2).toOption).getD []

end RCA

namespace RCA

/-! ### Helper lemmas -/

theorem dictContains_iff {α β : Type} [DecidableEq α] (m : List (α × β)) (k : α) :
    dictContains m k = true ↔ k ∈ m.map Prod.fst := by
  induction m with
  | nil => simp [dictContains, dictGet]
  | cons p rest ih =>
      by_cases h : p.1 = k
      · simp [dictContains, dictGet, h]
      · simp only [dictContains, dictGet, if_neg h, List.map_cons, List.mem_cons]
        rw [dictContains] at ih
        rw [ih]
        constructor
        · exact Or.inr
        · rintro (h2 | h2)
          · exact absurd h2.symm h
          · exact h2

theorem ddAppend_contains {α β : Type} [DecidableEq α] (m : List (α × List β)) (k : α)
    (v : β) : dictContains (ddAppend m k v) k = true := by
  unfold ddAppend
  by_cases h : dictContains m k = true
  · rw [if_pos h, dictContains_iff]
    have hkeys : (m.map (fun p => if p.1 = k then (p.1, p.2 ++ [v]) else p)).map Prod.fst
        = m.map Prod.fst := by
      rw [List.map_map]
      apply List.map_congr_left
      intro p _
      by_cases hp : p.1 = k <;> simp [hp]
    rw [hkeys]
    exact (dictContains_iff m k).mp h
  · rw [if_neg h, dictContains_iff]
    simp

/-! ### C1 -/

/-- C1 (corrected): `add_edge` never creates node metadata; it registers the
source in the adjacency dict and the target in the reverse-adjacency dict,
and leaves `meta` untouched — so an edge endpoint is a metadata key only when
the snapshot declares it as an entity. -/
theorem C1_amended : ∀ (g : Graph) (s d rel : String),
    (addEdge g s d rel).meta = g.meta ∧
      dictContains (addEdge g s d rel).adj s = true ∧
      dictContains (addEdge g s d rel).radj d = true := by
  intro g s d rel
  exact ⟨rfl, ddAppend_contains g.adj s (d, rel), ddAppend_contains g.radj d (s, rel)⟩

/-- C1 counterexample: a snapshot whose only pod runs on an undeclared node
yields a `runs_on` edge whose target is not a metadata key. -/
theorem C1_cex : ¬ claimC1Statement := by
  intro hcl
  have h := hcl snapCex1 ("pod/a/p1", "node/n1", "runs_on") (by decide)
  exact absurd h.2 (by decide)

/-! ### C3 -/

/-- C3 (corrected): a signal with none of the three known keys evaluates to
false and a metric signal with one of the six comparison operators never
raises, but an operator outside the six raises `KeyError` whenever the
metric names a present feature. -/
theorem C3_amended : ∀ (ep : Episode) (sig : Sig),
    (sig.metric = none → sig.event = none → sig.log_pattern = none →
      hasSignal ep sig = Except.ok false) ∧
    (∀ name op, sig.metric = some name → sig.op = some op →
      op ∈ (["<", "<=", ">", ">=", "==", "!="] : List String) →
      ∃ b, hasSignal ep sig = Except.ok b) ∧
    (∀ name op, sig.metric = some name → sig.op = some op →
      op ∉ (["<", "<=", ">", ">=", "==", "!="] : List String) →
      (dictGet ep.features name).isSome = true →
      hasSignal ep sig = Except.error ("KeyError: " ++ op)) := by
  intro ep sig
  refine ⟨?_, ?_, ?_⟩
  · intro h1 h2 h3
    simp [hasSignal, h1, h2, h3]
  · intro name op hm ho hop
    simp only [hasSignal, hm, ho, Option.getD_some]
    cases hx : dictGet ep.features name with
    | none => exact ⟨false, rfl⟩
    | some x =>
        simp only [List.mem_cons, List.not_mem_nil, or_false] at hop
        rcases hop with h | h | h | h | h | h <;> subst h <;> exact ⟨_, rfl⟩
  · intro name op hm ho hop hsome
    simp only [hasSignal, hm, ho, Option.getD_some]
    cases hx : dictGet ep.features name with
    | none => rw [hx] at hsome; exact absurd hsome (by simp)
    | some x =>
        simp only [List.mem_cons, List.not_mem_nil, or_false, not_or] at hop
        obtain ⟨h1, h2, h3, h4, h5, h6⟩ := hop
        simp only [cmpOps]
        rw [if_neg h1, if_neg h2, if_neg h3, if_neg h4, if_neg h5, if_neg h6]

/-- C3 counterexample: `{"metric": "count", "op": "~"}` on an episode whose
features include `count` raises `KeyError: ~` instead of evaluating false. -/
theorem C3_cex : ¬ claimC3Statement := by
  intro hcl
  have h := (hcl epCex3 sigCex3).1 "count" "~" rfl rfl (by decide)
  have h2 : hasSignal epCex3 sigCex3 = Except.error ("KeyError: " ++ "~") := rfl
  rw [h2] at h
  exact Except.noConfusion h

/-- C3 witness: the keyless signal evaluates to false. -/
theorem C3_w : hasSignal epCex3 {} = Except.ok false :=
  (C3_amended epCex3 {}).1 rfl rfl rfl

/-! ### C7 -/

/-- C7 (code bug): a breadth-first search with direction `out` over a graph
whose only node is `node/n1` raises `ValueError` at the placeholder loop of
graph.py line 51 instead of returning a set. -/
theorem C7_bfs_raises :
    bfs gBug7 ["node/n1"] 1 "out" =
      Except.error "ValueError: too many values to unpack (expected 2)" := rfl

/-! ### C9 -/

/-- C9 (confirmed): `shortest_path_len(a, a)` is `0` for every known node in
every direction and under every hop cap, yet the `or 99` coercion in
`apply_rules` turns that 0 into the no-path sentinel 99. -/
theorem C9_spl_refl : ∀ (g : Graph) (dir : String) (maxHops : Nat) (a : NodeId),
    dictContains g.meta a = true →
    shortestPathLen g a a dir maxHops = some 0 ∧
      pyOr99 (shortestPathLen g a a dir maxHops) = 99 := by
  intro g dir mh a h
  have h1 : shortestPathLen g a a dir mh = some 0 := by
    rw [shortestPathLen, h]
    simp only [Bool.and_self, if_true]
    rw [show (targetsOf g).length + 2 = ((targetsOf g).length + 1) + 1 from rfl]
    rw [splAux]
    simp
  exact ⟨h1, by rw [h1]; rfl⟩

/-- C9 witness at a one-node graph. -/
theorem C9_spl_refl_w :
    shortestPathLen gW9 "deployment/d/x" "deployment/d/x" "both" 8 = some 0 ∧
      pyOr99 (shortestPathLen gW9 "deployment/d/x" "deployment/d/x" "both" 8) = 99 :=
  C9_spl_refl gW9 "both" 8 "deployment/d/x" (by decide)

/-! ### Counterexamples C2, C4, C5, C6 -/

/-- C2 counterexample: when the focus itself is the only prefix match
(hop distance 0), the claim predicts an unweighted topology score of 1.0 but
the `or 99` coercion makes the code emit 0. -/
theorem C2_cex : ¬ claimC2Statement := by
  intro hcl
  have h := hcl gCex2 epCex2 ruleCex2 "node" "node/x" candsCex2 (candsCex2.headD cand0)
    rfl (by decide) rfl (by decide)
  exact absurd h (by decide)

/-- C4 counterexample: a table with a `rollout_in_window` column yields an
episode whose features dict has no such entry at all. -/
theorem C4_cex : ¬ claimC4Statement := by
  intro hcl
  have h := hcl hashZero tCex4 600000000000 ["namespace", "pod", "node"] epsCex4
    (by decide) rfl (epsCex4.headD {}) (by decide)
  exact absurd h (by decide)

/-- C5 counterexample: under one legal hash function two distinct groups of
the same window receive the same episode id. -/
theorem C5_cex : ¬ claimC5Statement := by
  intro hcl
  have h := hcl.2 hashZero tCex5 600000000000 ["namespace", "pod", "node"] epsCex5
    (epsCex5.headD {}) (epsCex5.getD 1 {}) rfl (by decide) (by decide) (by decide)
    (by decide)
  exact absurd h (by decide)

/-- C6 counterexample: a rule with `score.temporal = -1` emits a candidate
whose temporal breakdown entry is negative. -/
theorem C6_cex : ¬ claimC6Statement := by
  intro hcl
  have h := hcl {} [ruleCex6] emptyGraph candsCex6 (candsCex6.headD cand0) rfl
    (by decide)
  exact absurd (h.2 ("temporal", -1) (by decide)) (by decide)

/-! ### The rule loop, dissected (for C2 and C6) -/

theorem applyRulesGo_mem (ep : Episode) (g : Graph) :
    ∀ (rules : List Rule) (acc res : List CandidateRoot) (c : CandidateRoot),
    applyRulesGo ep g rules acc = Except.ok res → c ∈ res →
    c ∈ acc ∨ ∃ r ∈ rules, candFor ep g r = Except.ok c := by
  intro rules
  induction rules with
  | nil =>
      intro acc res c hres hc
      simp only [applyRulesGo] at hres
      injection hres with h
      subst h
      exact Or.inl hc
  | cons r rest ih =>
      intro acc res c hres hc
      simp only [applyRulesGo] at hres
      cases hew : evalWhen ep (r.when_.getD {}) with
      | error e =>
          simp only [hew] at hres
          exact Except.noConfusion hres
      | ok b =>
          simp only [hew] at hres
          cases b with
          | false =>
              rcases ih acc res c hres hc with h | ⟨r2, hr2, hcf⟩
              · exact Or.inl h
              · exact Or.inr ⟨r2, List.mem_cons_of_mem r hr2, hcf⟩
          | true =>
              cases hcf : candFor ep g r with
              | error e =>
                  simp only [hcf] at hres
                  exact Except.noConfusion hres
              | ok c2 =>
                  simp only [hcf] at hres
                  rcases ih (acc ++ [c2]) res c hres hc with h | ⟨r2, hr2, hcf2⟩
                  · rcases List.mem_append.mp h with h | h
                    · exact Or.inl h
                    · rw [List.mem_singleton] at h
                      subst h
                      exact Or.inr ⟨r, List.mem_cons_self r rest, hcf⟩
                  · exact Or.inr ⟨r2, List.mem_cons_of_mem r hr2, hcf2⟩

theorem applyRules_mem (ep : Episode) (g : Graph) (rules : List Rule)
    (cs : List CandidateRoot) (c : CandidateRoot)
    (hok : applyRules ep rules g = Except.ok cs) (hc : c ∈ cs) :
    ∃ r ∈ rules, candFor ep g r = Except.ok c := by
  unfold applyRules at hok
  cases hgo : applyRulesGo ep g rules [] with
  | error e =>
      simp only [hgo] at hok
      exact Except.noConfusion hok
  | ok cands =>
      simp only [hgo] at hok
      injection hok with h
      subst h
      have h1 : c ∈ List.insertionSort candGE cands := List.mem_of_mem_take hc
      have h2 : c ∈ cands := (List.perm_insertionSort candGE cands).mem_iff.mp h1
      rcases applyRulesGo_mem ep g rules [] cands c hgo h2 with h | h
      · exact absurd h (List.not_mem_nil c)
      · exact h

theorem topoFor_fst_nonneg (g : Graph) (f rc : Option String) (ts : ℚ × Option NodeId)
    (h : topoFor g f rc = Except.ok ts) : 0 ≤ ts.1 := by
  unfold topoFor at h
  cases rc with
  | none => cases f <;> · injection h with h2; subst h2; exact le_refl 0
  | some rcv =>
      cases f with
      | none => injection h with h2; subst h2; exact le_refl 0
      | some fv =>
          cases hb : bfs g [fv] 3 "both" with
          | error e =>
              simp only [hb] at h
              exact Except.noConfusion h
          | ok neigh =>
              simp only [hb] at h
              cases hflt : neigh.filter (fun n => (rcv ++ "/").data.isPrefixOf n.data) with
              | nil =>
                  simp only [hflt] at h
                  injection h with h2
                  subst h2
                  exact le_refl 0
              | cons m0 ms =>
                  simp only [hflt] at h
                  injection h with h2
                  subst h2
                  by_cases h99 : (minBySnd (m0, pyOr99 (shortestPathLen g fv m0 "both" 8))
                      (ms.map (fun n => (n, pyOr99 (shortestPathLen g fv n "both" 8))))).2 ≠ 99
                  · simp only [if_pos h99]
                    exact le_max_left 0 _
                  · simp only [if_neg h99]
                    exact le_refl 0

theorem candFor_score (ep : Episode) (g : Graph) (r : Rule) (c : CandidateRoot)
    (h : candFor ep g r = Except.ok c) :
    c.score = round4 ((c.score_breakdown.map Prod.snd).sum) := by
  unfold candFor at h
  cases hts : topoFor g (focusOf ep) r.root_component with
  | error e =>
      simp only [hts] at h
      exact Except.noConfusion h
  | ok ts =>
      simp only [hts] at h
      injection h with h2
      subst h2
      simp only [List.map_cons, List.map_nil, List.sum_cons, List.sum_nil]
      exact congrArg round4 (by ring)

theorem candFor_nonneg (ep : Episode) (g : Graph) (r : Rule) (c : CandidateRoot)
    (h : candFor ep g r = Except.ok c) (hw : ruleWeightsNonneg r)
    (her : 0 ≤ (dictGet ep.features "error_ratio").getD 0)
    (hro : 0 ≤ (dictGet ep.features "rollout_in_window").getD 0) :
    ∀ p ∈ c.score_breakdown, 0 ≤ p.2 := by
  obtain ⟨hw1, hw2, hw3, hw4⟩ := hw
  unfold candFor at h
  cases hts : topoFor g (focusOf ep) r.root_component with
  | error e =>
      simp only [hts] at h
      exact Except.noConfusion h
  | ok ts =>
      simp only [hts] at h
      injection h with h2
      subst h2
      intro p hp
      simp only [List.mem_cons, List.not_mem_nil, or_false] at hp
      rcases hp with h | h | h | h <;> subst h
      · exact hw1
      · exact mul_nonneg hw2 (topoFor_fst_nonneg g (focusOf ep) r.root_component ts hts)
      · exact mul_nonneg hw3 (le_min zero_le_one her)
      · exact mul_nonneg hw4 hro

/-- C6 (corrected): the score is always the rounded sum of the breakdown
entries; the entries are non-negative provided the rule weights and the
consulted features are non-negative (rule weights are data and may be
negative, which the claim missed). -/
theorem C6_amended : ∀ (ep : Episode) (rules : List Rule) (g : Graph)
    (cs : List CandidateRoot) (c : CandidateRoot),
    applyRules ep rules g = Except.ok cs → c ∈ cs →
    c.score = round4 ((c.score_breakdown.map Prod.snd).sum) ∧
      ((∀ r ∈ rules, ruleWeightsNonneg r) →
        0 ≤ (dictGet ep.features "error_ratio").getD 0 →
        0 ≤ (dictGet ep.features "rollout_in_window").getD 0 →
        ∀ p ∈ c.score_breakdown, 0 ≤ p.2) := by
  intro ep rules g cs c hok hc
  obtain ⟨r, hrmem, hcf⟩ := applyRules_mem ep g rules cs c hok hc
  exact ⟨candFor_score ep g r c hcf,
    fun hwAll her hro => candFor_nonneg ep g r c hcf (hwAll r hrmem) her hro⟩

/-- C6 witness: the scenario-1 candidate's score is the rounded sum of its
breakdown. -/
theorem C6_w : (candsW2.headD cand0).score =
    round4 (((candsW2.headD cand0).score_breakdown.map Prod.snd).sum) :=
  (C6_amended epW2 [ruleW2] gW2 candsW2 (candsW2.headD cand0) rfl (by decide)).1

/-! ### C2 : the topology term -/

theorem minBySnd_snd (l : List (NodeId × Nat)) : ∀ best : NodeId × Nat,
    (minBySnd best l).2 = l.foldl (fun acc x => min acc x.2) best.2 := by
  induction l with
  | nil => intro best; rfl
  | cons x rest ih =>
      intro best
      simp only [minBySnd, List.foldl_cons]
      rw [ih]
      congr 1
      by_cases h : x.2 < best.2
      · rw [if_pos h]
        exact (min_eq_right h.le).symm
      · rw [if_neg h]
        exact (min_eq_left (le_of_not_lt h)).symm

theorem dictGet_topology (a b c d : ℚ) :
    dictGet [("temporal", a), ("topology", b), ("magnitude", c), ("change", d)]
      "topology" = some b := by
  simp [dictGet]

theorem topoFor_eq_codeTopo (g : Graph) (f rc : String) (ts : ℚ × Option NodeId)
    (h : topoFor g (some f) (some rc) = Except.ok ts) : ts.1 = codeTopoScore g f rc := by
  unfold topoFor at h
  unfold codeTopoScore codeHops
  cases hb : bfs g [f] 3 "both" with
  | error e =>
      simp only [hb] at h
      exact Except.noConfusion h
  | ok neigh =>
      simp only [hb] at h ⊢
      cases hflt : neigh.filter (fun n => (rc ++ "/").data.isPrefixOf n.data) with
      | nil =>
          simp only [hflt] at h ⊢
          injection h with h2
          subst h2
          rfl
      | cons m0 ms =>
          simp only [hflt] at h ⊢
          injection h with h2
          subst h2
          simp only [minNat?, List.map_cons]
          have hmin : (minBySnd (m0, pyOr99 (shortestPathLen g f m0 "both" 8))
              (ms.map (fun n => (n, pyOr99 (shortestPathLen g f n "both" 8))))).2 =
              (ms.map (fun n => pyOr99 (shortestPathLen g f n "both" 8))).foldl min
                (pyOr99 (shortestPathLen g f m0 "both" 8)) := by
            rw [minBySnd_snd, List.foldl_map, List.foldl_map]
          rw [hmin]
  
theorem candFor_topo (ep : Episode) (g : Graph) (r : Rule) (c : CandidateRoot)
    (rc f : String) (hrc : r.root_component = some rc) (hf : focusOf ep = some f)
    (h : candFor ep g r = Except.ok c) :
    dictGet c.score_breakdown "topology" =
      some ((r.score.getD {}).topology.getD (2 / 5) * codeTopoScore g f rc) := by
  unfold candFor at h
  cases hts : topoFor g (focusOf ep) r.root_component with
  | error e =>
      simp only [hts] at h
      exact Except.noConfusion h
  | ok ts =>
      simp only [hts] at h
      injection h with h2
      subst h2
      rw [dictGet_topology]
      rw [hf, hrc] at hts
      rw [topoFor_eq_codeTopo g f rc ts hts]

/-- C2 (corrected): the emitted topology term is the rule's topology weight
times the decayed score of `codeHops` — the least over the prefix matches of
`shortest_path_len(focus, n) or 99`, so a hop distance of 0 counts as
no path (99) and contributes 0, not 1.0. -/
theorem C2_amended : ∀ (g : Graph) (ep : Episode) (r : Rule) (rc f : String)
    (cs : List CandidateRoot) (c : CandidateRoot),
    r.root_component = some rc → focusOf ep = some f →
    applyRules ep [r] g = Except.ok cs → c ∈ cs →
    dictGet c.score_breakdown "topology" =
      some ((r.score.getD {}).topology.getD (2 / 5) * codeTopoScore g f rc) := by
  intro g ep r rc f cs c hrc hf hok hc
  obtain ⟨r2, hr2, hcf⟩ := applyRules_mem ep g [r] cs c hok hc
  rw [List.mem_singleton] at hr2
  subst hr2
  exact candFor_topo ep g r2 c rc f hrc hf hcf

/-- C2 witness, scenario 1: focus `pod/shop/checkout-1`, root component
`node`, one hop to `node/n1`. -/
theorem C2_w : dictGet (candsW2.headD cand0).score_breakdown "topology" =
    some ((ruleW2.score.getD {}).topology.getD (2 / 5) *
      codeTopoScore gW2 "pod/shop/checkout-1" "node") :=
  C2_amended gW2 epW2 ruleW2 "node" "pod/shop/checkout-1" candsW2 (candsW2.headD cand0)
    rfl (by decide) rfl (by decide)

/-! ### C4 and C10 : episodes -/

theorem dictGet_eq_none_of_not_mem {α β : Type} [DecidableEq α] (m : List (α × β)) (k : α)
    (h : k ∉ m.map Prod.fst) : dictGet m k = none := by
  cases hx : dictGet m k with
  | none => rfl
  | some v =>
      have hc : dictContains m k = true := by rw [dictContains, hx]; rfl
      exact absurd ((dictContains_iff m k).mp hc) h

/-- Every episode `build_episodes` emits is `mkEpisode` of some window start,
group key and group rows. -/
theorem buildEpisodes_mem (h : String → Nat) (t : Table) (w : Int) (keys : List String)
    (eps : List Episode) (ep : Episode)
    (hok : buildEpisodes h t w keys = Except.ok eps) (hep : ep ∈ eps) :
    ∃ (wstart : Int) (gk : GroupKey) (gdf : List Row),
      ep = mkEpisode h t.cols w wstart gk gdf := by
  unfold buildEpisodes at hok
  split at hok
  · exact Except.noConfusion hok
  · injection hok with h2
    subst h2
    rw [List.mem_flatten] at hep
    obtain ⟨l, hl, hepl⟩ := hep
    rw [List.mem_map] at hl
    obtain ⟨w2, hw2, rfl⟩ := hl
    rw [List.mem_map] at hepl
    obtain ⟨p, hp, rfl⟩ := hepl
    exact ⟨w2, p.1, p.2, rfl⟩

/-- C4 (corrected): `build_episodes` emits exactly the four features
`count`, `error_ratio`, `restarts`, `http5xx`; there is never a
`rollout_in_window` entry, so the change term of `apply_rules` reads its
`.get(…, 0)` default for every built episode. -/
theorem C4_amended : ∀ (h : String → Nat) (t : Table) (w : Int) (keys : List String)
    (eps : List Episode) (ep : Episode),
    buildEpisodes h t w keys = Except.ok eps → ep ∈ eps →
    ep.features.map Prod.fst = ["count", "error_ratio", "restarts", "http5xx"] ∧
      dictGet ep.features "rollout_in_window" = none := by
  intro h t w keys eps ep hok hep
  obtain ⟨ws, gk, gdf, rfl⟩ := buildEpisodes_mem h t w keys eps ep hok hep
  constructor
  · rfl
  · apply dictGet_eq_none_of_not_mem
    rw [show (mkEpisode h t.cols w ws gk gdf).features.map Prod.fst =
      ["count", "error_ratio", "restarts", "http5xx"] from rfl]
    decide

/-- C4 witness: the single episode built from a table with a
`rollout_in_window` column. -/
theorem C4_w : (epsCex4.headD {}).features.map Prod.fst =
      ["count", "error_ratio", "restarts", "http5xx"] ∧
    dictGet (epsCex4.headD {}).features "rollout_in_window" = none :=
  C4_amended hashZero tCex4 600000000000 ["namespace", "pod", "node"] epsCex4
    (epsCex4.headD {}) rfl (by decide)

/-- C10 (confirmed): every sampled event message is a string of at most 400
characters; a missing message becomes the literal string `"None"`
(`str(None)`), and an episode holding such an event satisfies the
case-insensitive substring signal `{event: "none"}`. -/
theorem C10_msg :
    (∀ (h : String → Nat) (t : Table) (w : Int) (keys : List String)
      (eps : List Episode) (ep : Episode) (e : Event),
      buildEpisodes h t w keys = Except.ok eps → ep ∈ eps → e ∈ ep.events →
        e.msg.length ≤ 400) ∧
    (∀ r : Row, r.msg = none → (toEvent r).msg = "None") ∧
    (∀ (ep : Episode) (e : Event), e ∈ ep.events → e.msg = "None" →
      hasSignal ep { event := some "none" } = Except.ok true) := by
  refine ⟨?_, ?_, ?_⟩
  · intro h t w keys eps ep e hok hep he
    obtain ⟨ws, gk, gdf, rfl⟩ := buildEpisodes_mem h t w keys eps ep hok hep
    simp only [mkEpisode, List.mem_map] at he
    obtain ⟨r, hr, rfl⟩ := he
    show (String.mk ((pyStrOfMsg r.msg).data.take 400)).length ≤ 400
    show ((pyStrOfMsg r.msg).data.take 400).length ≤ 400
    rw [List.length_take]
    exact min_le_left 400 _
  · intro r hr
    simp only [toEvent, hr, pyStrOfMsg]
    decide
  · intro ep e he hm
    simp only [hasSignal]
    congr 1
    rw [List.any_eq_true]
    refine ⟨e, he, ?_⟩
    rw [hm]
    decide

/-- C10 witness: a row without a message yields the event message `"None"`. -/
theorem C10_w : (toEvent { msg := none }).msg = "None" :=
  C10_msg.2.1 { msg := none } rfl

/-! ### C5 : episode-id injectivity -/

theorem toNat_ofNat_small (n : Nat) (h : n < 256) : (Char.ofNat n).toNat = n := by
  unfold Char.ofNat
  split
  · rfl
  · next hval => exact absurd (Or.inl (by omega)) hval

theorem natToDecL_digits : ∀ (fuel n : Nat), ∀ c ∈ natToDecL fuel n,
    48 ≤ c.toNat ∧ c.toNat ≤ 57 := by
  intro fuel
  induction fuel with
  | zero => intro n c hc; simp [natToDecL] at hc
  | succ fuel ih =>
      intro n c hc
      rw [natToDecL] at hc
      by_cases h : n < 10
      · rw [if_pos h, List.mem_singleton] at hc
        subst hc
        rw [toNat_ofNat_small (48 + n) (by omega)]
        omega
      · rw [if_neg h] at hc
        rcases List.mem_append.mp hc with h2 | h2
        · exact ih (n / 10) c h2
        · rw [List.mem_singleton] at h2
          subst h2
          rw [toNat_ofNat_small (48 + n % 10) (by omega)]
          omega

theorem decVal_append_digit (l : List Char) (c : Char) :
    decVal (l ++ [c]) = decVal l * 10 + (c.toNat - 48) := by
  unfold decVal
  rw [List.foldl_append]
  rfl

theorem decVal_natToDecL : ∀ fuel n, n < fuel → decVal (natToDecL fuel n) = n := by
  intro fuel
  induction fuel with
  | zero => omega
  | succ fuel ih =>
      intro n h
      rw [natToDecL]
      by_cases h2 : n < 10
      · rw [if_pos h2]
        have hv : decVal [Char.ofNat (48 + n)] = (Char.ofNat (48 + n)).toNat - 48 := by
          unfold decVal
          simp [List.foldl]
        rw [hv, toNat_ofNat_small (48 + n) (by omega)]
        omega
      · rw [if_neg h2, decVal_append_digit, ih (n / 10) (by omega),
          toNat_ofNat_small (48 + n % 10) (by omega)]
        omega

theorem intToDecL_inj (a b : Int) (h : intToDecL a = intToDecL b) : a = b := by
  unfold intToDecL at h
  by_cases ha : a < 0 <;> by_cases hb : b < 0
  · rw [if_pos ha, if_pos hb] at h
    injection h with _ h2
    have e1 := decVal_natToDecL (1 + (-a).toNat) (-a).toNat (by omega)
    have e2 := decVal_natToDecL (1 + (-b).toNat) (-b).toNat (by omega)
    rw [h2, e2] at e1
    omega
  · rw [if_pos ha, if_neg hb] at h
    have hd : '-' ∈ natToDecL (1 + b.toNat) b.toNat := by
      rw [← h]
      exact List.mem_cons_self _ _
    have := (natToDecL_digits _ _ '-' hd).1
    have hm : ('-' : Char).toNat = 45 := rfl
    omega
  · rw [if_neg ha, if_pos hb] at h
    have hd : '-' ∈ natToDecL (1 + a.toNat) a.toNat := by
      rw [h]
      exact List.mem_cons_self _ _
    have := (natToDecL_digits _ _ '-' hd).1
    have hm : ('-' : Char).toNat = 45 := rfl
    omega
  · rw [if_neg ha, if_neg hb] at h
    have e1 := decVal_natToDecL (1 + a.toNat) a.toNat (by omega)
    have e2 := decVal_natToDecL (1 + b.toNat) b.toNat (by omega)
    rw [h, e2] at e1
    omega

theorem toHexPad_length : ∀ k n, (toHexPad k n).length = k := by
  intro k
  induction k with
  | zero => intro n; rfl
  | succ k ih =>
      intro n
      rw [toHexPad, List.length_append, ih]
      rfl

theorem hexVal_append_digit (l : List Char) (c : Char) :
    hexVal (l ++ [c]) = hexVal l * 16 +
      (if c.toNat ≤ 57 then c.toNat - 48 else c.toNat - 87) := by
  unfold hexVal
  rw [List.foldl_append]
  rfl

theorem hval_hexChar (d : Nat) (h : d < 16) :
    (if (hexChar d).toNat ≤ 57 then (hexChar d).toNat - 48 else (hexChar d).toNat - 87)
      = d := by
  unfold hexChar
  by_cases h2 : d < 10
  · rw [if_pos h2, toNat_ofNat_small (48 + d) (by omega), if_pos (by omega)]
    omega
  · rw [if_neg h2, toNat_ofNat_small (87 + d) (by omega), if_neg (by omega)]
    omega

theorem hexVal_toHexPad : ∀ k n, hexVal (toHexPad k n) = n % 16 ^ k := by
  intro k
  induction k with
  | zero =>
      intro n
      simp [toHexPad, hexVal, Nat.mod_one]
  | succ k ih =>
      intro n
      rw [toHexPad, hexVal_append_digit, ih (n / 16), hval_hexChar (n % 16) (by omega)]
      have hdec : n % 16 ^ (k + 1) = n % 16 + 16 * (n / 16 % 16 ^ k) := by
        rw [pow_succ, mul_comm (16 ^ k) 16]
        exact Nat.mod_mul
      omega

theorem toHexPad_inj (n m : Nat) (hn : n < 16 ^ 7) (hm : m < 16 ^ 7)
    (h : toHexPad 7 n = toHexPad 7 m) : n = m := by
  have h1 := hexVal_toHexPad 7 n
  have h2 := hexVal_toHexPad 7 m
  rw [h, h2] at h1
  rw [Nat.mod_eq_of_lt hm, Nat.mod_eq_of_lt hn] at h1
  exact h1.symm

/-- C5 (corrected): for one fixed hash function (one process), the episode id
determines the window start and the 28-bit masked hash of the group-key
string — ids of distinct windows, or of groups with distinct 28-bit hashes,
are distinct.  Distinctness of distinct groups within a window holds only up
to 28-bit hash collisions, and Python's salted `hash` makes ids differ
across processes. -/
theorem C5_amended : ∀ (h : String → Nat) (w w2 : Int) (k k2 : String),
    episodeId h w k = episodeId h w2 k2 →
    w = w2 ∧ h k % 268435456 = h k2 % 268435456 := by
  intro h w w2 k k2 heq
  unfold episodeId at heq
  have hdata : intToDecL w ++ ([':', ':'] ++ toHex7L (h k % 268435456)) =
      intToDecL w2 ++ ([':', ':'] ++ toHex7L (h k2 % 268435456)) :=
    congrArg String.data heq
  have hrev := congrArg List.reverse hdata
  rw [List.reverse_append, List.reverse_append, List.reverse_append,
    List.reverse_append] at hrev
  rw [List.append_assoc, List.append_assoc] at hrev
  have hlen : (toHex7L (h k % 268435456)).reverse.length
      = (toHex7L (h k2 % 268435456)).reverse.length := by
    rw [List.length_reverse, List.length_reverse]
    unfold toHex7L
    rw [toHexPad_length, toHexPad_length]
  obtain ⟨hhex, hrest⟩ := List.append_inj hrev hlen
  have hm1 : h k % 268435456 < 16 ^ 7 := by
    have : (16 : Nat) ^ 7 = 268435456 := by norm_num
    rw [this]
    exact Nat.mod_lt _ (by norm_num)
  have hm2 : h k2 % 268435456 < 16 ^ 7 := by
    have : (16 : Nat) ^ 7 = 268435456 := by norm_num
    rw [this]
    exact Nat.mod_lt _ (by norm_num)
  constructor
  · exact intToDecL_inj w w2 (List.reverse_injective (List.append_cancel_left hrest))
  · exact toHexPad_inj _ _ hm1 hm2 (List.reverse_injective hhex)

/-- C5 witness: the decomposition at a concrete id. -/
theorem C5_w : (5 : Int) = 5 ∧ hashZero "a" % 268435456 = hashZero "a" % 268435456 :=
  C5_amended hashZero 5 5 "a" "a" rfl

/-! ### C8 : graph JSON round-trip -/

theorem flatEdges_upd (k : NodeId) (v : NodeId × String) :
    ∀ (m : List (NodeId × List (NodeId × String))) (e : EdgeT),
    (e ∈ ((m.map (fun p => if p.1 = k then (p.1, p.2 ++ [v]) else p)).map
        (fun p => p.2.map (fun q => (p.1, q.1, q.2)))).flatten) ↔
      (e ∈ (m.map (fun p => p.2.map (fun q => (p.1, q.1, q.2)))).flatten ∨
        (e = (k, v.1, v.2) ∧ k ∈ m.map Prod.fst)) := by
  intro m
  induction m with
  | nil => intro e; simp
  | cons p rest ih =>
      intro e
      by_cases hp : p.1 = k
      · subst hp
        simp only [List.map_cons, eq_self_iff_true, if_true, List.flatten_cons,
          List.mem_append, List.map_append, List.map_nil, List.mem_cons, ih,
          List.mem_singleton, List.not_mem_nil, or_false, true_or, and_true]
        tauto
      · have hp2 : ¬ k = p.1 := fun hh => hp hh.symm
        simp only [List.map_cons, if_neg hp, List.flatten_cons, List.mem_append, ih,
          List.mem_cons]
        constructor
        · rintro (h | h | ⟨h1, h2⟩)
          · exact Or.inl (Or.inl h)
          · exact Or.inl (Or.inr h)
          · exact Or.inr ⟨h1, Or.inr h2⟩
        · rintro ((h | h) | ⟨h1, h2 | h2⟩)
          · exact Or.inl h
          · exact Or.inr (Or.inl h)
          · exact absurd h2 hp2
          · exact Or.inr (Or.inr ⟨h1, h2⟩)

theorem mem_edgesOf_addEdge (g : Graph) (s d rel : NodeId) (e : EdgeT) :
    e ∈ edgesOf (addEdge g s d rel) ↔ e = (s, d, rel) ∨ e ∈ edgesOf g := by
  show e ∈ ((ddAppend g.adj s (d, rel)).map
      (fun p => p.2.map (fun q => (p.1, q.1, q.2)))).flatten ↔ _
  unfold ddAppend
  by_cases hc : dictContains g.adj s
  · rw [if_pos hc]
    rw [flatEdges_upd s (d, rel) g.adj e]
    have hk : s ∈ g.adj.map Prod.fst := (dictContains_iff g.adj s).mp hc
    unfold edgesOf
    constructor
    · rintro (h | ⟨h1, _⟩)
      · exact Or.inr h
      · exact Or.inl h1
    · rintro (h | h)
      · exact Or.inr ⟨h, hk⟩
      · exact Or.inl h
  · rw [if_neg hc]
    unfold edgesOf
    simp only [List.map_append, List.flatten_append, List.mem_append, List.map_cons,
      List.map_nil, List.flatten_cons, List.flatten_nil, List.append_nil,
      List.mem_singleton, List.not_mem_nil, or_false]
    tauto

theorem edgesOf_addNode (g : Graph) (nid : NodeId) (kw : Meta) :
    edgesOf (addNode g nid kw) = edgesOf g := by
  show ((ddTouch g.adj nid).map (fun p => p.2.map (fun q => (p.1, q.1, q.2)))).flatten = _
  unfold ddTouch
  by_cases hc : dictContains g.adj nid
  · rw [if_pos hc]
    rfl
  · rw [if_neg hc]
    unfold edgesOf
    simp

theorem edgesOf_foldl_addNode (L : List (NodeId × Meta)) : ∀ g0 : Graph,
    edgesOf (L.foldl (fun g p => addNode g p.1 p.2) g0) = edgesOf g0 := by
  induction L with
  | nil => intro g0; rfl
  | cons p rest ih =>
      intro g0
      rw [List.foldl_cons, ih, edgesOf_addNode]

theorem mem_edgesOf_foldl_addEdge (E : List EdgeT) : ∀ (g0 : Graph) (e : EdgeT),
    e ∈ edgesOf (E.foldl (fun g e2 => addEdge g e2.1 e2.2.1 e2.2.2) g0) ↔
      e ∈ edgesOf g0 ∨ e ∈ E := by
  induction E with
  | nil => intro g0 e; simp
  | cons x rest ih =>
      intro g0 e
      obtain ⟨s2, d2, rel2⟩ := x
      rw [List.foldl_cons, ih, mem_edgesOf_addEdge]
      simp only [List.mem_cons]
      tauto

theorem dedupEdges_mem : ∀ (l seen : List EdgeT) (e : EdgeT),
    e ∈ dedupEdges seen l ↔ e ∈ l ∧ e ∉ seen := by
  intro l
  induction l with
  | nil => intro seen e; simp [dedupEdges]
  | cons x rest ih =>
      intro seen e
      rw [dedupEdges]
      by_cases hx : x ∈ seen
      · rw [if_pos hx, ih]
        simp only [List.mem_cons]
        constructor
        · rintro ⟨h1, h2⟩
          exact ⟨Or.inr h1, h2⟩
        · rintro ⟨h1 | h1, h2⟩
          · exact absurd (h1 ▸ hx) h2
          · exact ⟨h1, h2⟩
      · rw [if_neg hx]
        simp only [List.mem_cons, ih, List.mem_append, List.mem_singleton, not_or]
        constructor
        · rintro (h | ⟨h1, h2, h3⟩)
          · exact ⟨Or.inl h, h ▸ hx⟩
          · exact ⟨Or.inr h1, h2⟩
        · rintro ⟨h1 | h1, h2⟩
          · exact Or.inl h1
          · by_cases hex : e = x
            · exact Or.inl hex
            · exact Or.inr ⟨h1, h2, hex, List.not_mem_nil e⟩

theorem mem_iterEdges (g : Graph) (e : EdgeT) : e ∈ iterEdges g ↔ e ∈ edgesOf g := by
  rw [iterEdges, dedupEdges_mem]
  simp

theorem map_update_not_mem {α β : Type} [DecidableEq α] (f : α × β → α × β) (k : α) :
    ∀ m : List (α × β), k ∉ m.map Prod.fst →
    m.map (fun p => if p.1 = k then f p else p) = m := by
  intro m
  induction m with
  | nil => intro _; rfl
  | cons p rest ih =>
      intro h
      simp only [List.map_cons, List.mem_cons, not_or] at h
      rw [List.map_cons, if_neg (fun hh => h.1 hh.symm), ih h.2]

theorem dictSet_append {α β : Type} [DecidableEq α] (m : List (α × β)) (k : α) (v : β)
    (h : ¬ dictContains m k = true) : dictSet m k v = m ++ [(k, v)] := by
  unfold dictSet
  rw [if_neg h]

theorem dictUpdate_disjoint {α β : Type} [DecidableEq α] : ∀ (new acc : List (α × β)),
    (new.map Prod.fst).Nodup → (∀ k2 ∈ new.map Prod.fst, ¬ dictContains acc k2 = true) →
    dictUpdate acc new = acc ++ new := by
  intro new
  induction new with
  | nil => intro acc _ _; simp [dictUpdate]
  | cons p rest ih =>
      intro acc hnd hdis
      show List.foldl _ _ _ = _
      rw [List.foldl_cons]
      have h1 : dictSet acc p.1 p.2 = acc ++ [(p.1, p.2)] :=
        dictSet_append acc p.1 p.2 (hdis p.1 (by simp))
      rw [h1]
      simp only [List.map_cons, List.nodup_cons] at hnd
      have h2 : dictUpdate (acc ++ [(p.1, p.2)]) rest = (acc ++ [(p.1, p.2)]) ++ rest := by
        apply ih
        · exact hnd.2
        · intro k2 hk2
          rw [dictContains_iff]
          simp only [List.map_append, List.mem_append, List.map_cons, List.map_nil,
            List.mem_singleton, not_or]
          refine ⟨fun hm => ?_, fun hm => ?_⟩
          · have := hdis k2 (by simp [hk2])
            rw [dictContains_iff] at this
            exact this hm
          · exact hnd.1 (hm ▸ hk2)
      show dictUpdate (acc ++ [(p.1, p.2)]) rest = _
      rw [h2, List.append_assoc]
      rfl

theorem addNode_meta_fresh (g : Graph) (nid : NodeId) (kw : Meta)
    (hfresh : ¬ dictContains g.meta nid = true) (hkw : (kw.map Prod.fst).Nodup) :
    (addNode g nid kw).meta = g.meta ++ [(nid, kw)] := by
  show (if dictContains g.meta nid then g.meta else g.meta ++ [(nid, [])]).map
      (fun p => if p.1 = nid then (p.1, dictUpdate p.2 kw) else p) = _
  rw [if_neg hfresh, List.map_append,
    map_update_not_mem _ nid g.meta (fun hm => hfresh ((dictContains_iff _ _).mpr hm))]
  have : dictUpdate ([] : Meta) kw = kw := by
    have := dictUpdate_disjoint kw [] hkw (by intro k2 _; rw [dictContains_iff]; simp)
    simpa using this
  simp [this]

theorem foldl_addNode_meta : ∀ (L : List (NodeId × Meta)) (g0 : Graph),
    (g0.meta.map Prod.fst ++ L.map Prod.fst).Nodup →
    (∀ p ∈ L, (p.2.map Prod.fst).Nodup) →
    (L.foldl (fun g p => addNode g p.1 p.2) g0).meta = g0.meta ++ L := by
  intro L
  induction L with
  | nil => intro g0 _ _; simp
  | cons p rest ih =>
      intro g0 hnd hval
      rw [List.foldl_cons]
      have hfresh : ¬ dictContains g0.meta p.1 = true := by
        rw [dictContains_iff]
        intro hm
        rcases List.nodup_append.mp hnd with ⟨_, _, hdisj⟩
        exact hdisj hm (by simp)
      have hstep := addNode_meta_fresh g0 p.1 p.2 hfresh (hval p (by simp))
      have hrec := ih (addNode g0 p.1 p.2)
        (by
          rw [hstep]
          simp only [List.map_append, List.map_cons, List.map_nil]
          have : (g0.meta.map Prod.fst ++ [p.1]) ++ rest.map Prod.fst =
              g0.meta.map Prod.fst ++ (p.1 :: rest.map Prod.fst) := by
            rw [List.append_assoc]
            rfl
          rw [this]
          simpa using hnd)
        (fun q hq => hval q (List.mem_cons_of_mem p hq))
      rw [hrec, hstep, List.append_assoc]
      rfl

theorem foldl_addEdge_meta : ∀ (E : List EdgeT) (g0 : Graph),
    (E.foldl (fun g e => addEdge g e.1 e.2.1 e.2.2) g0).meta = g0.meta := by
  intro E
  induction E with
  | nil => intro g0; rfl
  | cons x rest ih =>
      intro g0
      rw [List.foldl_cons, ih]
      rfl

/-- C8 (confirmed): `from_json(to_json(g))` reconstructs the node metadata
map exactly and the `(src, dst, rel)` edge set up to the `_iter_edges`
deduplication, for every graph whose dicts satisfy the Python dict
representation invariant (unique keys). -/
theorem C8_roundtrip : ∀ g : Graph, wfMeta g.meta →
    (roundTrip g).meta = g.meta ∧
      ∀ e : EdgeT, (e ∈ iterEdges (roundTrip g) ↔ e ∈ iterEdges g) := by
  intro g hwf
  obtain ⟨hnd, hval⟩ := hwf
  constructor
  · show (fromJsonData g.meta (iterEdges g)).meta = g.meta
    unfold fromJsonData
    rw [foldl_addEdge_meta,
      foldl_addNode_meta g.meta emptyGraph (by simpa using hnd) (fun p hp => hval p hp)]
    rfl
  · intro e
    rw [mem_iterEdges, mem_iterEdges]
    show e ∈ edgesOf (fromJsonData g.meta (iterEdges g)) ↔ _
    unfold fromJsonData
    rw [mem_edgesOf_foldl_addEdge, edgesOf_foldl_addNode, mem_iterEdges]
    constructor
    · rintro (h | h)
      · exact absurd h (by simp [edgesOf, emptyGraph])
      · exact h
    · exact Or.inr

/-- C8 witness at a two-node, one-edge graph. -/
theorem C8_w : (roundTrip gW8).meta = gW8.meta ∧
    ∀ e : EdgeT, (e ∈ iterEdges (roundTrip gW8) ↔ e ∈ iterEdges gW8) :=
  C8_roundtrip gW8 (by decide)

end RCA
